import Mathlib

/-!
Verification of the PFC (Personal Finance Checkup) core: the financial-summary
aggregation and the percentage-pie-chart layout of `src/app.py`, shallowly
embedded over rational amounts (Python floats are modelled as `ℚ`; the claims
under study are about the algebraic structure of the computations, not float
rounding).
-/

namespace PFC

/-! ## JSON-level values and Python dict operations

`app.py` stores finance data as JSON (`data/client_{id}.json`).  `JVal` models
the possible JSON values; a JSON object is an insertion-ordered association
list, which is how Python dicts behave. -/

inductive JVal where
  | obj (fields : List (String × JVal))
  | arr (elems : List JVal)
  | num (q : ℚ)
  | str (s : String)
  | boolv (b : Bool)
  | null

/-- First-match lookup in an association list: Python `d[k]` / `d.get(k)`
(keys in a dict are unique, so first match is the match). -/
def lookupJ : List (String × JVal) → String → Option JVal
  | [], _ => none
  | (k', v) :: rest, k => if k' = k then some v else lookupJ rest k

/-- Python `k in d`. -/
def hasKeyJ (kvs : List (String × JVal)) (k : String) : Bool :=
  (lookupJ kvs k).isSome

/-- Python `d.setdefault(k, v)`: if the key is absent it is appended (dicts
keep insertion order), otherwise the dict is unchanged. -/
def setdefaultJ (kvs : List (String × JVal)) (k : String) (v : JVal) :
    List (String × JVal) :=
  if hasKeyJ kvs k then kvs else kvs ++ [(k, v)]

/-- Python `d[k] = v` for a key that may or may not be present: replaces the
value in place at the first occurrence, otherwise leaves the list unchanged
(in `load_client_finance` it is only used on a present key). -/
def updateJ : List (String × JVal) → String → JVal → List (String × JVal)
  | [], _, _ => []
  | (k', v') :: rest, k, v =>
    if k' = k then (k, v) :: rest else (k', v') :: updateJ rest k v

/-- `_empty_finance()` (src/app.py:134-142): the default per-client store. -/
def emptyFinance : List (String × JVal) :=
  [("income_details", .arr []),
   ("expense_details", .arr []),
   ("assets", .arr []),
   ("liabilities", .arr []),
   ("summary", .obj [("etc", .num 0)])]

/-- The state of `data/client_{id}.json` on disk: missing, present but not
valid JSON, or present with a parsed JSON value. -/
inductive FileState where
  | absent
  | unparseable
  | parsed (v : JVal)

/-- The normalization applied by `load_client_finance` to a parsed JSON
object (src/app.py:151-155): `raw.setdefault(k, base[k])` for each key of
`_empty_finance()`, then `raw["summary"].setdefault("etc", 0.0)`.  A
non-object `"summary"` value makes the `.setdefault` call raise, which the
enclosing `except Exception` turns into `_empty_finance()`. -/
def rawFinance (kvs : List (String × JVal)) : List (String × JVal) :=
  emptyFinance.foldl (fun acc kd => setdefaultJ acc kd.1 kd.2) kvs

def summaryFix (raw : List (String × JVal)) : List (String × JVal) :=
  match lookupJ raw "summary" with
  | some (.obj skvs) =>
      updateJ raw "summary" (.obj (setdefaultJ skvs "etc" (.num 0)))
  | _ => emptyFinance

def normalizeFinance (kvs : List (String × JVal)) : List (String × JVal) :=
  summaryFix (rawFinance kvs)

/-- `load_client_finance` (src/app.py:144-158).  Returns the dict the Python
function returns, paired with whether it wrote the default file to disk.
The whole parse-and-normalize block is wrapped in `try/except Exception`,
so a non-object top level (`raw.setdefault` raises `AttributeError`) or a
non-object `"summary"` value (`raw["summary"].setdefault` raises) falls back
to `_empty_finance()`. -/
def loadClientFinance : FileState → List (String × JVal) × Bool
  | .absent => (emptyFinance, true)
  | .unparseable => (emptyFinance, false)
  | .parsed (.obj kvs) => (normalizeFinance kvs, false)
  | .parsed _ => (emptyFinance, false)

/-! ## Summary aggregation over clean rows

The summary metrics (src/app.py:246-250 in `summary_box` and the identical
src/app.py:779-782 in TAB3) read only the `amount` field of each stored row,
so a clean row is modelled by its category and rational amount. -/

structure LineItem where
  category : String
  amount : ℚ
deriving Repr, DecidableEq

structure FinancialBook where
  income : List LineItem
  expense : List LineItem
  assets : List LineItem
  liabilities : List LineItem
  etc : ℚ
deriving Repr, DecidableEq

structure SummaryBucket where
  Income : ℚ
  Expense : ℚ
  Remaining : ℚ
  Etc : ℚ
deriving Repr, DecidableEq

/-- Python's built-in `sum` over a sequence of numbers: a left fold starting
from `0`. -/
def pySum (l : List ℚ) : ℚ := l.foldl (· + ·) 0

/-- The summary computation (src/app.py:246-250):
`income_sum = float(sum(x.get("amount", 0.0) for x in finance.get("income_details", [])))`,
likewise for expenses, `remaining = max(income_sum - expense_sum, 0.0)`,
`etc_val = float(finance.get("summary", {}).get("etc", 0.0))`. -/
def computeSummary (book : FinancialBook) : SummaryBucket :=
  { Income := pySum (book.income.map (·.amount))
    Expense := pySum (book.expense.map (·.amount))
    Remaining := max (pySum (book.income.map (·.amount))
      - pySum (book.expense.map (·.amount))) 0
    Etc := book.etc }

/-! ## Summary sums over raw JSON rows

At the JSON level a stored row is an object and the generator
`sum(x.get("amount", 0.0) for x in rows)` starts from the int `0` and adds
each row's `amount` value; `0 + v` raises `TypeError` unless `v` is numeric
(Python counts `bool` as numeric; `None`, strings, lists and dicts raise). -/

/-- Values Python's `+` accepts against a number, with their numeric value. -/
def toQ : JVal → Option ℚ
  | .num q => some q
  | .boolv b => some (if b then 1 else 0)
  | _ => none

/-- `x.get("amount", 0.0)` on a raw JSON row. -/
def amountOf (row : List (String × JVal)) : JVal :=
  (lookupJ row "amount").getD (.num 0)

/-- One step of the Python `sum`: `acc + v`, raising `TypeError` (modelled as
`Except.error ()`) when `v` is not numeric. -/
def pyAdd (acc : ℚ) (v : JVal) : Except Unit ℚ :=
  match toQ v with
  | some q => .ok (acc + q)
  | none => .error ()

/-- `sum(x.get("amount", 0.0) for x in rows)` over raw JSON rows
(src/app.py:247-248 and src/app.py:869-870). -/
def sumAmountsE (rows : List (List (String × JVal))) : Except Unit ℚ :=
  rows.foldlM (fun acc r => pyAdd acc (amountOf r)) 0

/-! ## Category totals (TAB4, src/app.py:880-882 and 891-893)

`df.groupby("category", dropna=False)["amount"].sum()` groups rows by the
exact category string (pandas `groupby` performs no trimming) and returns the
groups with their summed amounts, keys sorted ascending (`sort=True` is the
pandas default). -/

/-- Sum of the amounts of the items whose category is exactly `c`. -/
def catSum (items : List LineItem) (c : String) : ℚ :=
  pySum ((items.filter (fun it => decide (it.category = c))).map (·.amount))

/-- Python string `<`: lexicographic comparison by code point. -/
def pyStrLtL : List Char → List Char → Bool
  | [], [] => false
  | [], _ :: _ => true
  | _ :: _, [] => false
  | a :: as, b :: bs =>
      if a.toNat < b.toNat then true
      else if b.toNat < a.toNat then false
      else pyStrLtL as bs

/-- Python string `<=` on strings, used by the pandas group-key sort. -/
def pyStrLe (a b : String) : Bool :=
  decide (a = b) || pyStrLtL a.data b.data

/-- The distinct category strings, sorted ascending (the pandas `groupby`
default `sort=True`), grouping by the exact string. -/
def groupKeys (items : List LineItem) : List String :=
  List.insertionSort (fun a b => pyStrLe a b = true)
    ((items.map (·.category)).dedup)

/-- The grouped totals `(category, summed amount)` of the TAB4 `groupby`. -/
def categoryTotals (items : List LineItem) : List (String × ℚ) :=
  (groupKeys items).map (fun c => (c, catSum items c))

/-! ## Pie rendering (`draw_pie`, src/app.py:845-864) -/

/-- The destructuring filter at src/app.py:846:
`vals, leg = zip(*[(v,l) for v,l in zip(values, labels_for_legend) if v > 0]) if any(values) else ([],[])`.
`any(values)` is Python truthiness: true iff some value is nonzero.  When it
is true but no value is positive, the comprehension is empty and unpacking
`zip(*[])` into two names raises `ValueError`, modelled as `none`. -/
def drawPieKept (values : List ℚ) (labels : List String) :
    Option (List ℚ × List String) :=
  if values.any (fun v => decide (v ≠ 0)) then
    let kept := (values.zip labels).filter (fun p => decide (0 < p.1))
    if kept = [] then none
    else some (kept.map (·.1), kept.map (·.2))
  else some ([], [])

/-- The side legend at src/app.py:860:
`sorted(zip(leg, vals), key=lambda x: x[1], reverse=True)` — a stable sort of
the kept `(label, value)` pairs by value descending.  Python's `sorted` is
stable, and so is `List.insertionSort` with this relation. -/
def legendEntries (kept : List (ℚ × String)) : List (String × ℚ) :=
  List.insertionSort (fun a b => b.2 ≤ a.2) (kept.map (fun p => (p.2, p.1)))

instance : IsTotal (String × ℚ) (fun a b => b.2 ≤ a.2) :=
  ⟨fun a b => le_total b.2 a.2⟩

instance : IsTrans (String × ℚ) (fun a b => b.2 ≤ a.2) :=
  ⟨fun _ _ _ h1 h2 => le_trans h2 h1⟩

/-- Wedge angle layout of `ax.pie(vals, ..., startangle=90)`
(src/app.py:849-853) with matplotlib's default `counterclock=True`: each
wedge `(theta1, theta2)` spans `360 * v / total` degrees and wedges
accumulate counterclockwise (increasing angle) from `start`. -/
def pieArcs (total start : ℚ) : List ℚ → List (ℚ × ℚ)
  | [] => []
  | v :: rest =>
      (start, start + 360 * v / total) :: pieArcs total (start + 360 * v / total) rest

def pieAngles (vals : List ℚ) : List (ℚ × ℚ) :=
  pieArcs (pySum vals) 90 vals

/-- Follows the spec's words for comparison: the claimed clockwise layout,
in which wedges accumulate with decreasing angle from the start angle. -/
def pieArcsCW (total start : ℚ) : List ℚ → List (ℚ × ℚ)
  | [] => []
  | v :: rest =>
      (start, start - 360 * v / total) :: pieArcsCW total (start - 360 * v / total) rest

def specPieAnglesCW (vals : List ℚ) : List (ℚ × ℚ) :=
  pieArcsCW (pySum vals) 90 vals

/-- In-slice percentage label size, src/app.py:854:
`plt.setp(autotexts, size=pct_fs)` gives every wedge's label the same slider
value `pct_fs`, whatever the wedge's fraction of the whole is. -/
def codeAutopctSize (pctFs fraction : ℚ) : ℚ := pctFs

/-- Follows the spec's words for comparison: the claimed linear-clamped
interpolation `minFS + (maxFS - minFS) * min(fraction / referenceFraction, 1)`. -/
def specFontSizeLinear (minFS maxFS refFrac fraction : ℚ) : ℚ :=
  minFS + (maxFS - minFS) * min (fraction / refFrac) 1

/-! ## Editor validation and save (`_clean_and_validate_df` and
`editor_section`, src/app.py:610-640 and 738-757) -/

/-- A Python float as stored in a cleaned row's `amount`: a number or NaN.
NaN matters because `edited.fillna(...)` at src/app.py:615-618 does not
cover the `amount` column, so an empty number cell reaches the loop as NaN,
`float(nan)` succeeds, and `nan < 0` is `False`. -/
inductive PyFloat where
  | num (q : ℚ)
  | nan
deriving Repr, DecidableEq

/-- Python `v < 0` on a float: NaN compares `False` against everything. -/
def PyFloat.ltZero : PyFloat → Bool
  | .num q => decide (q < 0)
  | .nan => false

/-- The amount cell of an edited row, after the data editor: a number, NaN
(an empty number cell, untouched by the `fillna` map), or a value `float()`
raises on. -/
inductive AmtV where
  | okv (q : ℚ)
  | nanv
  | bad
deriving Repr, DecidableEq

/-- `float(r.get("amount", 0))` at src/app.py:626: `none` models the
`except` branch (a `TypeError`/`ValueError` from `float()`); a number or NaN
parses successfully. -/
def parseAmt : AmtV → Option PyFloat
  | .okv q => some (.num q)
  | .nanv => some .nan
  | .bad => none

structure DateT where
  y : ℕ
  m : ℕ
  d : ℕ
deriving Repr, DecidableEq

/-- An edited row as `_clean_and_validate_df` sees it after
`edited.fillna({category: "", date: today, desc: ""})`: the category and
description are strings, the date is a parsed date or missing. -/
structure EditRow where
  category : String
  desc : String
  amountV : AmtV
  dateV : Option DateT
deriving Repr, DecidableEq

/-- A persisted row: `{"category": cat, "amount": amt, "date": d_str}` plus
`"desc"` when the section has descriptions.  The amount is a Python float,
so it can be NaN (see `PyFloat`). -/
structure CleanRow where
  category : String
  amount : PyFloat
  date : String
  desc : Option String
deriving Repr, DecidableEq

/-- Python `str.strip()`: remove leading and trailing whitespace. -/
def pyStrip (s : String) : String :=
  ⟨((s.data.dropWhile Char.isWhitespace).reverse.dropWhile
      Char.isWhitespace).reverse⟩

def pad2 (n : ℕ) : String :=
  if n < 10 then "0" ++ toString n else toString n

/-- `date.isoformat()`: `YYYY-MM-DD`. -/
def isoOfDate (dt : DateT) : String :=
  toString dt.y ++ "-" ++ pad2 dt.m ++ "-" ++ pad2 dt.d

/-- `to_iso_date` (src/app.py:86-93): render the row's date, falling back to
today when the value is missing or unparseable. -/
def toIsoDate (today : DateT) (dv : Option DateT) : String :=
  isoOfDate (dv.getD today)

/-- The row loop of `_clean_and_validate_df` (src/app.py:620-639), carrying
the row index `i` used in error messages.  A row whose trimmed category is
empty is skipped silently, before the amount is even looked at; a row whose
amount does not parse contributes an error and no clean row; a parsed
amount is rejected only when `amt < 0` is `True` — a NaN amount passes the
check (`nan < 0` is `False`) and is persisted; otherwise the clean row
keeps the trimmed category, the parsed amount and the ISO date string. -/
def cleanRec (today : DateT) (hasDesc : Bool) :
    ℕ → List EditRow → List CleanRow × List ℕ
  | _, [] => ([], [])
  | i, r :: rest =>
    let res := cleanRec today hasDesc (i + 1) rest
    if pyStrip r.category = "" then res
    else
      match parseAmt r.amountV with
      | none => (res.1, i :: res.2)
      | some amt =>
        if amt.ltZero then (res.1, i :: res.2)
        else
          ({ category := pyStrip r.category, amount := amt,
             date := toIsoDate today r.dateV,
             desc := if hasDesc then some (pyStrip r.desc) else none } :: res.1,
           res.2)

/-- `_clean_and_validate_df(title, edited, has_desc)` returning
`(clean_rows, errs)` with errors as row indices. -/
def cleanAndValidate (today : DateT) (hasDesc : Bool) (rows : List EditRow) :
    List CleanRow × List ℕ :=
  cleanRec today hasDesc 0 rows

/-- The stored rows of one finance section after a save attempt
(src/app.py:738-757): both the autosave and the manual-save path run
`_clean_and_validate_df` and persist `clean_rows` only when `errs` is empty
(the autosave path additionally skips the write when the rows are unchanged,
which leaves the same stored value). -/
def saveSection (stored : List CleanRow) (today : DateT) (hasDesc : Bool)
    (edited : List EditRow) : List CleanRow :=
  if (cleanAndValidate today hasDesc edited).2 = [] then
    (cleanAndValidate today hasDesc edited).1
  else stored

/-! ### Dictionary lemmas -/

theorem lookupJ_append (kvs rest : List (String × JVal)) (k : String) :
    lookupJ (kvs ++ rest) k =
      ((lookupJ kvs k).rec (lookupJ rest k) fun v => some v : Option JVal) := by
  induction kvs with
  | nil => rfl
  | cons p tail ih =>
    simp only [List.cons_append, lookupJ]
    by_cases hpk : p.1 = k
    · simp [hpk]
    · simp [hpk, ih]

theorem hasKeyJ_append (kvs rest : List (String × JVal)) (k : String) :
    hasKeyJ (kvs ++ rest) k = (hasKeyJ kvs k || hasKeyJ rest k) := by
  simp only [hasKeyJ, lookupJ_append]
  cases lookupJ kvs k <;> simp

theorem hasKeyJ_setdefaultJ_self (kvs : List (String × JVal)) (k : String)
    (v : JVal) : hasKeyJ (setdefaultJ kvs k v) k = true := by
  rw [setdefaultJ]
  by_cases h : hasKeyJ kvs k = true
  · rw [if_pos h]; exact h
  · rw [if_neg h, hasKeyJ_append]
    simp [hasKeyJ, lookupJ]

theorem hasKeyJ_setdefaultJ_of (kvs : List (String × JVal)) (k k' : String)
    (v : JVal) (h : hasKeyJ kvs k' = true) :
    hasKeyJ (setdefaultJ kvs k v) k' = true := by
  rw [setdefaultJ]
  by_cases hk : hasKeyJ kvs k = true
  · rw [if_pos hk]; exact h
  · rw [if_neg hk, hasKeyJ_append, h]
    simp

theorem lookupJ_updateJ_ne (kvs : List (String × JVal)) (k k' : String)
    (v : JVal) (h : k' ≠ k) :
    lookupJ (updateJ kvs k v) k' = lookupJ kvs k' := by
  induction kvs with
  | nil => rfl
  | cons p rest ih =>
    simp only [updateJ]
    by_cases hpk : p.1 = k
    · simp only [hpk, if_true, lookupJ]
      have : ¬ (k = k') := fun hh => h hh.symm
      simp [this, hpk]
    · simp [lookupJ, hpk, ih]

theorem lookupJ_updateJ_self (kvs : List (String × JVal)) (k : String)
    (v : JVal) (h : hasKeyJ kvs k = true) :
    lookupJ (updateJ kvs k v) k = some v := by
  induction kvs with
  | nil => simp [hasKeyJ, lookupJ] at h
  | cons p rest ih =>
    simp only [updateJ]
    by_cases hpk : p.1 = k
    · simp [hpk, lookupJ]
    · simp only [hasKeyJ, lookupJ, hpk, if_false] at h
      simp [lookupJ, hpk, ih (by simpa [hasKeyJ] using h)]

theorem hasKeyJ_updateJ (kvs : List (String × JVal)) (k k' : String)
    (v : JVal) (h : hasKeyJ kvs k' = true) :
    hasKeyJ (updateJ kvs k v) k' = true := by
  by_cases hkk : k' = k
  · subst hkk
    simp [hasKeyJ, lookupJ_updateJ_self kvs k' v h]
  · simpa [hasKeyJ, lookupJ_updateJ_ne kvs k k' v hkk] using h

theorem hasKeyJ_foldl_setdefaultJ_of (ds : List (String × JVal))
    (kvs : List (String × JVal)) (k : String) (h : hasKeyJ kvs k = true) :
    hasKeyJ (ds.foldl (fun acc kd => setdefaultJ acc kd.1 kd.2) kvs) k
      = true := by
  induction ds generalizing kvs with
  | nil => exact h
  | cons d rest ih =>
    exact ih _ (hasKeyJ_setdefaultJ_of kvs d.1 k d.2 h)

theorem hasKeyJ_foldl_setdefaultJ_mem (ds : List (String × JVal))
    (kvs : List (String × JVal)) (k : String) (v : JVal)
    (h : (k, v) ∈ ds) :
    hasKeyJ (ds.foldl (fun acc kd => setdefaultJ acc kd.1 kd.2) kvs) k
      = true := by
  induction ds generalizing kvs with
  | nil => cases h
  | cons d rest ih =>
    cases h with
    | head =>
      exact hasKeyJ_foldl_setdefaultJ_of rest _ k
        (hasKeyJ_setdefaultJ_self kvs k v)
    | tail _ h2 => exact ih _ h2

/-! ### C10: totality of `load_client_finance` -/

/-- Helper for C10: `normalizeFinance` always returns a dict with all four
section keys and an object-valued `"summary"` containing `"etc"`. -/
theorem normalizeFinance_total (kvs : List (String × JVal)) :
    hasKeyJ (normalizeFinance kvs) "income_details" = true
    ∧ hasKeyJ (normalizeFinance kvs) "expense_details" = true
    ∧ hasKeyJ (normalizeFinance kvs) "assets" = true
    ∧ hasKeyJ (normalizeFinance kvs) "liabilities" = true
    ∧ ∃ skvs, lookupJ (normalizeFinance kvs) "summary" = some (.obj skvs)
        ∧ hasKeyJ skvs "etc" = true := by
  have hinc : hasKeyJ (rawFinance kvs) "income_details" = true :=
    hasKeyJ_foldl_setdefaultJ_mem emptyFinance kvs _ (.arr [])
      (List.Mem.head _)
  have hexp : hasKeyJ (rawFinance kvs) "expense_details" = true :=
    hasKeyJ_foldl_setdefaultJ_mem emptyFinance kvs _ (.arr [])
      (List.Mem.tail _ (List.Mem.head _))
  have hass : hasKeyJ (rawFinance kvs) "assets" = true :=
    hasKeyJ_foldl_setdefaultJ_mem emptyFinance kvs _ (.arr [])
      (List.Mem.tail _ (List.Mem.tail _ (List.Mem.head _)))
  have hlia : hasKeyJ (rawFinance kvs) "liabilities" = true :=
    hasKeyJ_foldl_setdefaultJ_mem emptyFinance kvs _ (.arr [])
      (List.Mem.tail _ (List.Mem.tail _ (List.Mem.tail _ (List.Mem.head _))))
  have hsum : hasKeyJ (rawFinance kvs) "summary" = true :=
    hasKeyJ_foldl_setdefaultJ_mem emptyFinance kvs _ (.obj [("etc", .num 0)])
      (List.Mem.tail _ (List.Mem.tail _ (List.Mem.tail _
        (List.Mem.tail _ (List.Mem.head _)))))
  unfold normalizeFinance summaryFix
  split
  · exact ⟨hasKeyJ_updateJ _ _ _ _ hinc, hasKeyJ_updateJ _ _ _ _ hexp,
      hasKeyJ_updateJ _ _ _ _ hass, hasKeyJ_updateJ _ _ _ _ hlia,
      _, lookupJ_updateJ_self _ _ _ hsum, hasKeyJ_setdefaultJ_self _ _ _⟩
  · next h =>
      cases hv : lookupJ (rawFinance kvs) "summary" with
      | none => rw [hasKeyJ, hv] at hsum; cases hsum
      | some w =>
        cases w with
        | obj skvs => exact absurd hv (h skvs)
        | arr es => exact ⟨rfl, rfl, rfl, rfl, [("etc", .num 0)], rfl, rfl⟩
        | num q => exact ⟨rfl, rfl, rfl, rfl, [("etc", .num 0)], rfl, rfl⟩
        | str s => exact ⟨rfl, rfl, rfl, rfl, [("etc", .num 0)], rfl, rfl⟩
        | boolv b => exact ⟨rfl, rfl, rfl, rfl, [("etc", .num 0)], rfl, rfl⟩
        | null => exact ⟨rfl, rfl, rfl, rfl, [("etc", .num 0)], rfl, rfl⟩

/-- C10: `load_client_finance` is total for every client id: it always
returns a dict containing `income_details`, `expense_details`, `assets`,
`liabilities` and an object `summary` containing `etc`; when the file does
not exist it writes and returns the empty default, and when the stored file
is unparseable it returns the empty default instead of raising. -/
theorem load_client_finance_total :
    (∀ fs : FileState,
        hasKeyJ (loadClientFinance fs).1 "income_details" = true
      ∧ hasKeyJ (loadClientFinance fs).1 "expense_details" = true
      ∧ hasKeyJ (loadClientFinance fs).1 "assets" = true
      ∧ hasKeyJ (loadClientFinance fs).1 "liabilities" = true
      ∧ ∃ skvs, lookupJ (loadClientFinance fs).1 "summary" = some (.obj skvs)
          ∧ hasKeyJ skvs "etc" = true)
    ∧ loadClientFinance .absent = (emptyFinance, true)
    ∧ loadClientFinance .unparseable = (emptyFinance, false) := by
  refine ⟨fun fs => ?_, rfl, rfl⟩
  cases fs with
  | absent => exact ⟨rfl, rfl, rfl, rfl, [("etc", .num 0)], rfl, rfl⟩
  | unparseable => exact ⟨rfl, rfl, rfl, rfl, [("etc", .num 0)], rfl, rfl⟩
  | parsed v =>
    cases v with
    | obj kvs => exact normalizeFinance_total kvs
    | arr es => exact ⟨rfl, rfl, rfl, rfl, [("etc", .num 0)], rfl, rfl⟩
    | num q => exact ⟨rfl, rfl, rfl, rfl, [("etc", .num 0)], rfl, rfl⟩
    | str s => exact ⟨rfl, rfl, rfl, rfl, [("etc", .num 0)], rfl, rfl⟩
    | boolv b => exact ⟨rfl, rfl, rfl, rfl, [("etc", .num 0)], rfl, rfl⟩
    | null => exact ⟨rfl, rfl, rfl, rfl, [("etc", .num 0)], rfl, rfl⟩

/-! ### C1: the summary computation -/

theorem pySum_eq_sum (l : List ℚ) : pySum l = l.sum :=
  (List.sum_eq_foldl).symm

/-- C1: for every `FinancialBook` the summary has Income the sum of the
income amounts, Expense the sum of the expense amounts,
`Remaining = max(Income - Expense, 0)` and hence never negative, and Etc the
stored etc scalar; an empty book yields all zeros, and Income 1000 with
Expense 1500 yields Remaining 0. -/
theorem computeSummary_spec :
    (∀ book : FinancialBook,
        (computeSummary book).Income = (book.income.map (·.amount)).sum
      ∧ (computeSummary book).Expense = (book.expense.map (·.amount)).sum
      ∧ (computeSummary book).Remaining
          = max ((computeSummary book).Income - (computeSummary book).Expense) 0
      ∧ 0 ≤ (computeSummary book).Remaining
      ∧ (computeSummary book).Etc = book.etc)
    ∧ computeSummary ⟨[], [], [], [], 0⟩ = ⟨0, 0, 0, 0⟩
    ∧ (computeSummary
        ⟨[⟨"Salary", 1000⟩], [⟨"Rent", 1500⟩], [], [], 0⟩).Remaining = 0 := by
  refine ⟨fun book => ⟨pySum_eq_sum _, pySum_eq_sum _, rfl, le_max_right _ _,
    rfl⟩, ?_, ?_⟩
  · simp only [computeSummary, pySum, List.map_nil, List.foldl_nil]
    norm_num
  · simp only [computeSummary, pySum, List.map_cons, List.map_nil,
      List.foldl_cons, List.foldl_nil]
    norm_num

/-! ### C7: missing vs malformed amounts in the summary sums -/

theorem sumAmountsE_go (rows : List (List (String × JVal))) (acc : ℚ)
    (h : ∀ r ∈ rows, (toQ (amountOf r)).isSome = true) :
    rows.foldlM (fun a r => pyAdd a (amountOf r)) acc
      = .ok (acc + (rows.map (fun r => (toQ (amountOf r)).getD 0)).sum) := by
  induction rows generalizing acc with
  | nil => simp [pure, Except.pure]
  | cons r rest ih =>
    obtain ⟨q, hq⟩ := Option.isSome_iff_exists.mp (h r (List.mem_cons_self r rest))
    have hrest := fun r' hr' => h r' (List.mem_cons_of_mem r hr')
    rw [List.foldlM_cons]
    simp only [pyAdd, hq]
    show rest.foldlM (fun a r => pyAdd a (amountOf r)) (acc + q) = _
    rw [ih (acc + q) hrest]
    simp [hq, add_assoc]

/-- C7 (amended): when every row's `amount` value, if present, is numeric,
the summary sum succeeds and a missing `amount` key is coerced to 0; but a
present non-numeric amount makes Python's `sum` raise `TypeError` (see the
counterexample), so the computation is not exception-free. -/
theorem sumAmounts_missing_coerced :
    (∀ rows : List (List (String × JVal)),
        (∀ r ∈ rows, (toQ (amountOf r)).isSome = true) →
        sumAmountsE rows
          = .ok ((rows.map (fun r => (toQ (amountOf r)).getD 0)).sum))
    ∧ sumAmountsE [[("category", .str "Salary")]] = .ok 0
    ∧ amountOf [] = .num 0 := by
  refine ⟨fun rows h => ?_, ?_, rfl⟩
  · rw [sumAmountsE, sumAmountsE_go rows 0 h, zero_add]
  · rw [sumAmountsE, sumAmountsE_go _ 0 (by
      intro r hr
      rw [List.mem_singleton] at hr
      subst hr
      rfl), zero_add]
    simp [amountOf, lookupJ, toQ]

theorem sumAmounts_missing_coerced_witness :
    sumAmountsE [[("amount", JVal.num 3)]]
      = .ok (([[("amount", JVal.num 3)]].map
          (fun r => (toQ (amountOf r)).getD 0)).sum) :=
  sumAmounts_missing_coerced.1 _ (by
    intro r hr
    rw [List.mem_singleton] at hr
    subst hr
    rfl)

/-- C7 counterexample: a stored row whose `amount` is the string `"abc"`
makes the summary sum raise `TypeError` instead of being coerced to 0. -/
theorem sumAmounts_nonnumeric_raises :
    sumAmountsE [[("amount", JVal.str "abc")]] = .error ()
    ∧ (Except.error () : Except Unit ℚ) ≠ .ok 0 :=
  ⟨rfl, fun h => Except.noConfusion h⟩

/-! ### C2: category totals group by the exact, untrimmed string -/

/-- Helper: the group keys are exactly the categories occurring in the
items. -/
theorem mem_groupKeys (items : List LineItem) (c : String) :
    c ∈ groupKeys items ↔ ∃ it ∈ items, it.category = c := by
  rw [groupKeys,
    (List.perm_insertionSort (fun a b => pyStrLe a b = true) _).mem_iff,
    List.mem_dedup, List.mem_map]

/-- C2 (amended): the category-totals computation groups items by the exact
category string with no trimming (trimming happens earlier, at save time, in
`_clean_and_validate_df`), sums `amount` per group, and the chart keeps
exactly the groups with positive sum; the example
`[{cat:"A",amt:10},{cat:"A",amt:5},{cat:"B",amt:0}]` yields a chart with the
single slice `A = 15`. -/
theorem categoryTotals_spec :
    (∀ (items : List LineItem), ∀ p ∈ categoryTotals items,
        p.2 = catSum items p.1)
    ∧ (∀ (items : List LineItem) (c : String),
        (∃ q, (c, q) ∈ categoryTotals items) ↔ ∃ it ∈ items, it.category = c)
    ∧ drawPieKept
        ((categoryTotals [⟨"A", 10⟩, ⟨"A", 5⟩, ⟨"B", 0⟩]).map (·.2))
        ((categoryTotals [⟨"A", 10⟩, ⟨"A", 5⟩, ⟨"B", 0⟩]).map (·.1))
        = some ([15], ["A"]) := by
  refine ⟨fun items p hp => ?_, fun items c => ?_, ?_⟩
  · rw [categoryTotals] at hp
    obtain ⟨k, _, hk⟩ := List.mem_map.mp hp
    rw [← hk]
  · constructor
    · rintro ⟨q, hq⟩
      obtain ⟨k, hk, hkq⟩ := List.mem_map.mp hq
      have hc : k = c := congrArg Prod.fst hkq
      exact (mem_groupKeys items c).mp (hc ▸ hk)
    · intro h
      exact ⟨catSum items c, List.mem_map.mpr
        ⟨c, (mem_groupKeys items c).mpr h, rfl⟩⟩
  · have hkeys : groupKeys [⟨"A", 10⟩, ⟨"A", 5⟩, ⟨"B", 0⟩] = ["A", "B"] := by
      decide
    have htot : categoryTotals [⟨"A", 10⟩, ⟨"A", 5⟩, ⟨"B", 0⟩]
        = [("A", 15), ("B", 0)] := by
      rw [categoryTotals, hkeys]
      norm_num +decide [catSum, pySum, List.filter]
    rw [htot]
    simp only [List.map_cons, List.map_nil, drawPieKept]
    norm_num

theorem categoryTotals_spec_witness :
    (10 : ℚ) = catSum [⟨"A", 10⟩] "A" := by
  have hkeys : groupKeys [⟨"A", (10 : ℚ)⟩] = ["A"] := by decide
  have hval : catSum [⟨"A", (10 : ℚ)⟩] "A" = 10 := by
    norm_num +decide [catSum, pySum, List.filter]
  have hmem : (("A", (10 : ℚ))) ∈ categoryTotals [⟨"A", 10⟩] := by
    rw [categoryTotals, hkeys]
    simp [hval]
  exact categoryTotals_spec.1 [⟨"A", 10⟩] ("A", 10) hmem

/-- C2 counterexample: items with categories `" A"` and `"A"` form two
distinct groups — the computation does not trim before matching, so the
claimed single group `{A: 15}` is wrong. -/
theorem categoryTotals_no_trim_cex :
    categoryTotals [⟨" A", 10⟩, ⟨"A", 5⟩] = [(" A", 10), ("A", 5)]
    ∧ categoryTotals [⟨" A", 10⟩, ⟨"A", 5⟩] ≠ [("A", 15)] := by
  have hkeys : groupKeys [⟨" A", 10⟩, ⟨"A", 5⟩] = [" A", "A"] := by decide
  have htot : categoryTotals [⟨" A", 10⟩, ⟨"A", 5⟩]
      = [(" A", 10), ("A", 5)] := by
    rw [categoryTotals, hkeys]
    norm_num +decide [catSum, pySum, List.filter]
  refine ⟨htot, fun h => ?_⟩
  rw [htot] at h
  simp at h

/-! ### Validation lemmas for `_clean_and_validate_df` (C8, C9) -/

/-- Every clean row produced by the validation loop has a non-empty
(trimmed) category, an amount on which Python's `amt < 0` check is `False`
(so a numeric amount is non-negative, while a NaN amount also passes), and
an ISO-rendered date. -/
theorem cleanRec_clean_props (today : DateT) (hasDesc : Bool) :
    ∀ (i : ℕ) (rows : List EditRow),
      ∀ c ∈ (cleanRec today hasDesc i rows).1,
        c.category ≠ "" ∧ c.amount.ltZero = false
        ∧ (∀ q, c.amount = .num q → 0 ≤ q)
        ∧ ∃ dt, c.date = isoOfDate dt := by
  intro i rows
  induction rows generalizing i with
  | nil => intro c hc; simp [cleanRec] at hc
  | cons r rest ih =>
    intro c hc
    simp only [cleanRec] at hc
    by_cases hcat : pyStrip r.category = ""
    · rw [if_pos hcat] at hc
      exact ih (i + 1) c hc
    · rw [if_neg hcat] at hc
      cases hP : parseAmt r.amountV with
      | none =>
        rw [hP] at hc
        exact ih (i + 1) c hc
      | some amt =>
        rw [hP] at hc
        dsimp only at hc
        by_cases hlz : amt.ltZero = true
        · rw [if_pos hlz] at hc
          exact ih (i + 1) c hc
        · rw [if_neg hlz] at hc
          rcases List.mem_cons.mp hc with hc | hc
          · subst hc
            have hfalse : amt.ltZero = false := Bool.eq_false_iff.mpr hlz
            refine ⟨hcat, hfalse, fun q hq => ?_, r.dateV.getD today, rfl⟩
            have hq' : amt = PyFloat.num q := hq
            rw [hq', PyFloat.ltZero] at hfalse
            exact not_lt.mp (of_decide_eq_false hfalse)
          · exact ih (i + 1) c hc

/-- A row with non-empty trimmed category whose amount is unparseable or
negative always produces an error. -/
theorem cleanRec_errs_of_bad (today : DateT) (hasDesc : Bool) :
    ∀ (i : ℕ) (rows : List EditRow),
      (∃ r ∈ rows, pyStrip r.category ≠ ""
        ∧ (r.amountV = .bad ∨ ∃ q, r.amountV = .okv q ∧ q < 0)) →
      (cleanRec today hasDesc i rows).2 ≠ [] := by
  intro i rows
  induction rows generalizing i with
  | nil => rintro ⟨r, hr, -⟩; cases hr
  | cons r rest ih =>
    rintro ⟨r', hr', hcat', hbad'⟩
    simp only [cleanRec]
    by_cases hcat : pyStrip r.category = ""
    · rw [if_pos hcat]
      rcases List.mem_cons.mp hr' with h | h
      · exact absurd (h ▸ hcat) hcat'
      · exact ih (i + 1) ⟨r', h, hcat', hbad'⟩
    · rw [if_neg hcat]
      cases hA : r.amountV with
      | bad =>
        dsimp only [parseAmt]
        exact List.cons_ne_nil i _
      | nanv =>
        dsimp only [parseAmt]
        rw [if_neg (by decide : ¬ PyFloat.ltZero .nan = true)]
        rcases List.mem_cons.mp hr' with h | h
        · subst h
          rcases hbad' with hb | ⟨q', hq', -⟩
          · rw [hA] at hb; cases hb
          · rw [hA] at hq'; cases hq'
        · exact ih (i + 1) ⟨r', h, hcat', hbad'⟩
      | okv q =>
        dsimp only [parseAmt]
        by_cases hq : q < 0
        · rw [if_pos (show PyFloat.ltZero (.num q) = true from
            decide_eq_true hq)]
          exact List.cons_ne_nil i _
        · rw [if_neg (show ¬ PyFloat.ltZero (.num q) = true from
            fun hd => hq (of_decide_eq_true hd))]
          rcases List.mem_cons.mp hr' with h | h
          · subst h
            rcases hbad' with hb | ⟨q', hq', hneg⟩
            · rw [hA] at hb; cases hb
            · rw [hA] at hq'
              cases hq'
              exact absurd hneg hq
          · exact ih (i + 1) ⟨r', h, hcat', hbad'⟩

/-! ### C9: save is atomic over validation, but empty-category rows skip
validation -/

/-- C9 (amended): a save attempt persists nothing when validation reports
errors, and persists exactly the cleaned rows when it does not; a row with a
*non-empty* trimmed category and a negative or unparseable amount always
blocks the save; every persisted row has a non-empty trimmed category, an
ISO date string, and an amount on which the `amt < 0` check is `False` — a
numeric amount is non-negative, but a NaN amount (an empty number cell,
which `fillna` does not cover) parses under `float()`, passes the negative
check, and is persisted as NaN.  (Rows whose trimmed category is empty are
dropped *before* the amount check, so they never block a save — see the
counterexample.) -/
theorem save_section_validation (today : DateT) (hasDesc : Bool)
    (stored : List CleanRow) (edited : List EditRow) :
    ((cleanAndValidate today hasDesc edited).2 ≠ [] →
      saveSection stored today hasDesc edited = stored)
    ∧ ((cleanAndValidate today hasDesc edited).2 = [] →
      saveSection stored today hasDesc edited
        = (cleanAndValidate today hasDesc edited).1)
    ∧ ((∃ r ∈ edited, pyStrip r.category ≠ ""
          ∧ (r.amountV = .bad ∨ ∃ q, r.amountV = .okv q ∧ q < 0)) →
      saveSection stored today hasDesc edited = stored)
    ∧ (∀ c ∈ (cleanAndValidate today hasDesc edited).1,
        c.category ≠ "" ∧ c.amount.ltZero = false
        ∧ (∀ q, c.amount = .num q → 0 ≤ q)
        ∧ ∃ dt, c.date = isoOfDate dt) := by
  refine ⟨fun herr => ?_, fun hok => ?_, fun hbad => ?_, ?_⟩
  · rw [saveSection, if_neg herr]
  · rw [saveSection, if_pos hok]
  · have herr : (cleanAndValidate today hasDesc edited).2 ≠ [] :=
      cleanRec_errs_of_bad today hasDesc 0 edited hbad
    rw [saveSection, if_neg herr]
  · exact cleanRec_clean_props today hasDesc 0 edited

theorem save_section_validation_witness :
    saveSection [] ⟨2026, 1, 1⟩ true [⟨"A", "", .okv 10, none⟩]
      = (cleanAndValidate ⟨2026, 1, 1⟩ true [⟨"A", "", .okv 10, none⟩]).1 :=
  (save_section_validation ⟨2026, 1, 1⟩ true []
    [⟨"A", "", .okv 10, none⟩]).2.1 (by decide)

/-- C9 counterexample: an edited table containing a row with a negative
amount but an empty category produces *no* validation error, and the save
goes through (the stored empty list becomes one row), contradicting the
claim that any row with a negative amount blocks persistence; moreover a
row with a NaN amount (empty number cell) is persisted with `amount` NaN,
which is not a number `>= 0`, contradicting the claimed persisted-row
invariant. -/
theorem save_section_skips_empty_category_cex :
    (cleanAndValidate ⟨2026, 1, 1⟩ true
        [⟨"", "", .okv (-5), none⟩, ⟨"A", "", .okv 10, none⟩]).2 = []
    ∧ ((⟨"", "", .okv (-5), none⟩ : EditRow).amountV = .okv (-5)
        ∧ (-5 : ℚ) < 0)
    ∧ (saveSection [] ⟨2026, 1, 1⟩ true
        [⟨"", "", .okv (-5), none⟩, ⟨"A", "", .okv 10, none⟩]).length = 1
    ∧ ([] : List CleanRow).length = 0
    ∧ saveSection [] ⟨2026, 1, 1⟩ true [⟨"B", "", .nanv, none⟩]
        = [{ category := "B", amount := .nan, date := "2026-01-01",
             desc := some "" }]
    ∧ ∀ q : ℚ, (PyFloat.nan : PyFloat) ≠ .num q :=
  ⟨by decide, ⟨rfl, by decide⟩, by decide, rfl, by decide,
    fun q h => PyFloat.noConfusion h⟩

/-! ### C8: empty-category rows are dropped at save time, not by the
aggregation -/

/-- C8 (amended): the save-time cleanup drops rows with an empty trimmed
category, so persisted books contain none; the Income/Expense sums and the
category totals themselves do not filter by category — an empty-category
row present in storage contributes its amount to the sums and forms its own
group in the totals. -/
theorem aggregation_ignores_category :
    (∀ (today : DateT) (hasDesc : Bool) (edited : List EditRow),
        ∀ c ∈ (cleanAndValidate today hasDesc edited).1, c.category ≠ "")
    ∧ (∀ book : FinancialBook,
        (computeSummary book).Income
          = ((book.income.filter
                (fun r => decide (pyStrip r.category = ""))).map (·.amount)).sum
            + ((book.income.filter
                (fun r => !decide (pyStrip r.category = ""))).map (·.amount)).sum)
    ∧ categoryTotals [⟨"", 7⟩] = [("", 7)] := by
  refine ⟨fun today hasDesc edited c hc =>
      (cleanRec_clean_props today hasDesc 0 edited c hc).1,
    fun book => ?_, ?_⟩
  · have hperm :=
      List.filter_append_perm (fun r => decide (pyStrip r.category = ""))
        book.income
    calc (computeSummary book).Income
        = (book.income.map (·.amount)).sum := pySum_eq_sum _
      _ = (((book.income.filter (fun r => decide (pyStrip r.category = "")))
            ++ (book.income.filter
                (fun r => !decide (pyStrip r.category = "")))).map
              (·.amount)).sum := ((hperm.map (·.amount)).sum_eq).symm
      _ = _ := by rw [List.map_append, List.sum_append]
  · have hkeys : groupKeys [⟨"", 7⟩] = [""] := by decide
    rw [categoryTotals, hkeys]
    norm_num +decide [catSum, pySum, List.filter]

theorem aggregation_ignores_category_witness :
    ({ category := "A", amount := .num 1, date := "2026-01-01",
        desc := none } : CleanRow).category ≠ "" :=
  aggregation_ignores_category.1 ⟨2026, 1, 1⟩ false
    [⟨"A", "", .okv 1, none⟩] ⟨"A", .num 1, "2026-01-01", none⟩ (by decide)

/-- C8 counterexample: a stored income row with empty category and amount 50
contributes 50 to Income — the sum does not exclude it, while the claim
says it contributes nothing (which would give 0). -/
theorem summary_counts_empty_category_cex :
    (computeSummary ⟨[⟨"", 50⟩], [], [], [], 0⟩).Income = 50
    ∧ ((([⟨"", (50 : ℚ)⟩] : List LineItem).filter
        (fun r => !decide (pyStrip r.category = ""))).map (·.amount)).sum = 0
    ∧ (50 : ℚ) ≠ 0 := by
  refine ⟨?_, by decide, by norm_num⟩
  norm_num [computeSummary, pySum]

/-! ### C3: wedge order is the filtered input order; the legend is the
sorted list -/

/-- C3 (amended): the wedge render order is deterministic — it is the order
of the positively-filtered input sequence, not a sort — while the side
legend (src/app.py:860), not the wedge sequence, is sorted by amount
descending. -/
theorem wedge_order_spec :
    (∀ (vals : List ℚ) (labels : List String) (ws : List ℚ)
        (ls : List String),
        drawPieKept vals labels = some (ws, ls) →
        ws = ((vals.zip labels).filter (fun p => decide (0 < p.1))).map (·.1))
    ∧ ∀ kept : List (ℚ × String),
        List.Sorted (fun a b => b.2 ≤ a.2) (legendEntries kept) := by
  refine ⟨fun vals labels ws ls h => ?_, fun kept => ?_⟩
  case refine_2 =>
    rw [legendEntries]
    exact List.sorted_insertionSort _ _
  rw [drawPieKept] at h
  by_cases hany : vals.any (fun v => decide (v ≠ 0)) = true
  · rw [if_pos hany] at h
    dsimp only at h
    by_cases hkept :
        (vals.zip labels).filter (fun p => decide (0 < p.1)) = []
    · rw [if_pos hkept] at h
      cases h
    · rw [if_neg hkept] at h
      have h' := Option.some.inj h
      exact (congrArg Prod.fst h').symm
  · rw [if_neg hany] at h
    have h' := Option.some.inj h
    have hfil : (vals.zip labels).filter (fun p => decide (0 < p.1)) = [] := by
      rw [List.filter_eq_nil_iff]
      rintro ⟨v, l⟩ hp
      have hv : v ∈ vals := (List.of_mem_zip hp).1
      intro hdec
      have hvpos : (0 : ℚ) < v := of_decide_eq_true hdec
      exact hany (List.any_eq_true.mpr
        ⟨v, hv, decide_eq_true (ne_of_gt hvpos)⟩)
    rw [hfil]
    exact (congrArg Prod.fst h').symm

theorem wedge_order_spec_witness :
    ([1, 10] : List ℚ)
      = ((([1, 10] : List ℚ).zip ["a", "b"]).filter
          (fun p => decide (0 < p.1))).map (·.1) :=
  wedge_order_spec.1 [1, 10] ["a", "b"] [1, 10] ["a", "b"] (by decide)

/-- C3 counterexample: positive entries supplied as `[1, 10]` are rendered
as wedges in that same order, which is not sorted by amount descending. -/
theorem wedge_order_not_sorted_cex :
    drawPieKept [1, 10] ["a", "b"] = some ([1, 10], ["a", "b"])
    ∧ ¬ List.Sorted (fun a b : ℚ => b ≤ a) [1, 10] := by
  refine ⟨by decide, fun h => ?_⟩
  have h10 := List.rel_of_sorted_cons h 10 (List.mem_singleton.mpr rfl)
  norm_num at h10

/-! ### C4: wedges start at 90° but proceed counterclockwise -/

theorem pieArcs_map_span (total s : ℚ) (l : List ℚ) :
    (pieArcs total s l).map (fun p => p.2 - p.1)
      = l.map (fun v => 360 * v / total) := by
  induction l generalizing s with
  | nil => rfl
  | cons v rest ih =>
    show (s + 360 * v / total - s) :: _ = _
    rw [add_sub_cancel_left, ih, List.map_cons]

theorem pieArcs_head_start (total s : ℚ) (l : List ℚ) :
    ∀ p ∈ (pieArcs total s l).head?, p.1 = s := by
  cases l with
  | nil => intro p hp; simp [pieArcs] at hp
  | cons v rest =>
    intro p hp
    simp only [pieArcs, List.head?_cons, Option.mem_def,
      Option.some.injEq] at hp
    rw [← hp]

theorem pieArcs_chain (total : ℚ) (l : List ℚ) :
    ∀ s : ℚ, List.Chain' (fun a b : ℚ × ℚ => a.2 = b.1)
      (pieArcs total s l) := by
  induction l with
  | nil => intro s; simp [pieArcs]
  | cons v rest ih =>
    intro s
    show List.Chain' _ ((s, s + 360 * v / total)
      :: pieArcs total (s + 360 * v / total) rest)
    exact (ih _).cons' (fun p hp => (pieArcs_head_start _ _ _ p hp).symm)

theorem pieArcs_pos (total : ℚ) (l : List ℚ) (htot : 0 < total)
    (hl : ∀ v ∈ l, 0 < v) :
    ∀ s : ℚ, ∀ p ∈ pieArcs total s l, p.1 < p.2 := by
  induction l with
  | nil => intro s p hp; simp [pieArcs] at hp
  | cons v rest ih =>
    intro s p hp
    rcases List.mem_cons.mp hp with hp | hp
    · subst hp
      have hv : 0 < 360 * v / total :=
        div_pos (mul_pos (by norm_num) (hl v (List.mem_cons_self v rest)))
          htot
      exact lt_add_of_pos_right s hv
    · exact ih (fun w hw => hl w (List.mem_cons_of_mem v hw)) _ p hp

/-- C4 (amended): wedges are laid out sequentially starting at 90° with
wedge `i` spanning `360 * amount_i / total` degrees, but they proceed
*counterclockwise* (increasing angles — matplotlib's default
`counterclock=True`), not clockwise. -/
theorem pie_angles_spec (vals : List ℚ) :
    ((pieAngles vals).map (fun p => p.2 - p.1)
      = vals.map (fun v => 360 * v / pySum vals))
    ∧ (∀ p ∈ (pieAngles vals).head?, p.1 = 90)
    ∧ List.Chain' (fun a b : ℚ × ℚ => a.2 = b.1) (pieAngles vals)
    ∧ ((∀ v ∈ vals, 0 < v) → ∀ p ∈ pieAngles vals, p.1 < p.2) := by
  refine ⟨pieArcs_map_span _ _ _, pieArcs_head_start _ _ _,
    pieArcs_chain _ _ _, fun hpos p hp => ?_⟩
  cases vals with
  | nil => simp [pieAngles, pieArcs] at hp
  | cons v rest =>
    have htot : 0 < pySum (v :: rest) := by
      rw [pySum_eq_sum]
      exact List.sum_pos _ hpos (List.cons_ne_nil v rest)
    exact pieArcs_pos _ _ htot hpos _ p hp

theorem pie_angles_spec_witness : (90 : ℚ) < 360 := by
  have harcs : pieAngles [3, 1] = [(90, 360), (360, 450)] := by
    norm_num [pieAngles, pieArcs, pySum]
  exact (pie_angles_spec [3, 1]).2.2.2 (by decide) (90, 360)
    (by rw [harcs]; exact List.mem_cons_self _ _)

/-- C4 counterexample: for amounts `[3, 1]` the rendered wedges are
`[(90°, 360°), (360°, 450°)]` — angles increase (counterclockwise) — while
the claimed clockwise layout would give `[(90°, -180°), (-180°, -270°)]`. -/
theorem pie_angles_not_clockwise_cex :
    pieAngles [3, 1] = [(90, 360), (360, 450)]
    ∧ specPieAnglesCW [3, 1] = [(90, -180), (-180, -270)]
    ∧ pieAngles [3, 1] ≠ specPieAnglesCW [3, 1] := by
  have h1 : pieAngles [3, 1] = [(90, 360), (360, 450)] := by
    norm_num [pieAngles, pieArcs, pySum]
  have h2 : specPieAnglesCW [3, 1] = [(90, -180), (-180, -270)] := by
    norm_num [specPieAnglesCW, pieArcsCW, pySum]
  refine ⟨h1, h2, ?_⟩
  rw [h1, h2]
  decide

/-! ### C5: percentage labels all use the single slider font size -/

/-- C5 (amended): every wedge's in-slice percentage label gets the single
slider-configured size `pct_fs`, independent of the wedge's fraction; no
min/max interpolation exists in the code. -/
theorem autopct_size_constant :
    ∀ pctFs f1 f2 : ℚ, codeAutopctSize pctFs f1 = codeAutopctSize pctFs f2
      ∧ codeAutopctSize pctFs f1 = pctFs :=
  fun _ _ _ => ⟨rfl, rfl⟩

/-- C5 counterexample: there is no configuration `minFS < maxFS` with
reference fraction in `(0, 1]` under which the code's constant label size
(at the default slider value 12) equals the claimed linear-clamped
interpolation for every fraction: the interpolation takes the value `minFS`
at fraction 0 and `maxFS` at the reference fraction, while the code gives 12
at both. -/
theorem autopct_size_not_interpolated_cex :
    ¬ ∃ minFS maxFS refFrac : ℚ, minFS < maxFS ∧ 0 < refFrac ∧ refFrac ≤ 1
      ∧ ∀ fraction : ℚ, 0 ≤ fraction → fraction ≤ 1 →
          codeAutopctSize 12 fraction
            = specFontSizeLinear minFS maxFS refFrac fraction := by
  rintro ⟨a, b, r, hab, hr, hr1, h⟩
  have h0 := h 0 le_rfl (by norm_num)
  have hs := h r hr.le hr1
  rw [codeAutopctSize, specFontSizeLinear, zero_div,
    min_eq_left (by norm_num : (0 : ℚ) ≤ 1), mul_zero, add_zero] at h0
  rw [codeAutopctSize, specFontSizeLinear, div_self (ne_of_gt hr), min_self,
    mul_one] at hs
  linarith

/-! ### C6: the `any(values)` guard and the empty destructuring -/

theorem filter_pos_ne_nil :
    ∀ (vals : List ℚ) (labels : List String), vals.length = labels.length →
      (∃ v ∈ vals, 0 < v) →
      (vals.zip labels).filter (fun p => decide (0 < p.1)) ≠ [] := by
  intro vals
  induction vals with
  | nil =>
    rintro labels _ ⟨v, hv, -⟩
    cases hv
  | cons v vt ih =>
    intro labels hlen hex
    cases labels with
    | nil => cases hlen
    | cons l lt =>
      rw [List.zip_cons_cons, List.filter_cons]
      by_cases hv : (0 : ℚ) < v
      · rw [if_pos (decide_eq_true hv)]
        exact List.cons_ne_nil _ _
      · rw [if_neg (fun hd => hv (of_decide_eq_true hd))]
        rcases hex with ⟨w, hw, hwpos⟩
        rcases List.mem_cons.mp hw with hw | hw
        · exact absurd (hw ▸ hwpos) hv
        · exact ih lt (Nat.succ_injective hlen) ⟨w, hw, hwpos⟩

/-- C6 (amended): for value lists paired with equally long label lists, the
pie never raises when every value is non-negative, and an empty or all-zero
input yields the empty result (no slices, no legend) — but see the
counterexample: an input with a nonzero value and no positive value makes
the destructuring raise `ValueError`, so the claim does not hold for every
input. -/
theorem draw_pie_guard_spec :
    (∀ (vals : List ℚ) (labels : List String), vals.length = labels.length →
        ((∀ v ∈ vals, 0 ≤ v) → (drawPieKept vals labels).isSome = true)
      ∧ ((∀ v ∈ vals, v = 0) → drawPieKept vals labels = some ([], [])))
    ∧ drawPieKept [] [] = some ([], []) := by
  refine ⟨fun vals labels hlen => ⟨fun hnn => ?_, fun hz => ?_⟩, rfl⟩
  · rw [drawPieKept]
    by_cases hany : vals.any (fun v => decide (v ≠ 0)) = true
    · rw [if_pos hany]
      obtain ⟨v, hv, hvd⟩ := List.any_eq_true.mp hany
      have hvpos : 0 < v :=
        lt_of_le_of_ne (hnn v hv) (Ne.symm (of_decide_eq_true hvd))
      dsimp only
      rw [if_neg (filter_pos_ne_nil vals labels hlen ⟨v, hv, hvpos⟩)]
      rfl
    · rw [if_neg hany]
      rfl
  · rw [drawPieKept]
    have hany : ¬ vals.any (fun v => decide (v ≠ 0)) = true := by
      intro hh
      obtain ⟨v, hv, hvd⟩ := List.any_eq_true.mp hh
      exact (of_decide_eq_true hvd) (hz v hv)
    rw [if_neg hany]

theorem draw_pie_guard_spec_witness :
    drawPieKept [0] ["x"] = some ([], []) :=
  (draw_pie_guard_spec.1 [0] ["x"] rfl).2 (by decide)

/-- C6 counterexample: the value set `[-5]` is truthy for `any(values)` yet
has no positive entry, so the comprehension is empty and the unpacking
raises `ValueError` (modelled as `none`) instead of returning an empty
result. -/
theorem draw_pie_raises_cex :
    drawPieKept [-5] ["a"] = none
    ∧ drawPieKept [-5] ["a"] ≠ some ([], []) :=
  ⟨by decide, by decide⟩

end PFC
